import Mathlib

/-!
Shallow embedding of the `novelty-engine` decision core: the window
aggregator, soapiness decision engine and plan builder of
`src/linter/lint.py`, and the fact-lock guard and rewrite stub of
`src/rewriter/fact_locks.py` / `src/rewriter/rewrite.py`.

Texts are modelled as lists of characters (Python `str`), exact rational
and real arithmetic stands in for floating point, and `Counter` objects
are modelled as the list of all inserted keys (so a key's count is its
multiplicity in that list).
-/

set_option maxRecDepth 8000

namespace NoveltyEngine

/-- A Python string, modelled as its list of characters. -/
abbrev Str := List Char

/-- Convenience conversion from a Lean string literal to `Str`. -/
def strL (s : String) : Str := s.data

/-- Python `str.lower()` (ASCII case folding). -/
def lowerStr (s : Str) : Str := s.map Char.toLower

/-- Occurrence count of `a` in `l`; models `collections.Counter` lookup on the
list of all inserted keys. -/
def countOcc [DecidableEq α] (a : α) (l : List α) : ℕ := l.count a

/-- Whether `needle` is an initial segment of `haystack`. -/
def startsWithL : Str → Str → Bool
  | [], _ => true
  | _ :: _, [] => false
  | a :: as, b :: bs => a == b && startsWithL as bs

/-- Python substring membership `needle in haystack`. -/
def containsSub (needle : Str) : Str → Bool
  | [] => startsWithL needle []
  | b :: bs => startsWithL needle (b :: bs) || containsSub needle bs

/-- Substring relation between character lists (the specification-level
meaning of Python `in` on strings). -/
def InfixOf (m l : Str) : Prop := ∃ pre post, pre ++ m ++ post = l

/-- Accumulator loop behind `pySplit`: `acc` holds the current token reversed. -/
def splitWsAux : List Char → List Char → List Str
  | [], acc => if acc = [] then [] else [acc.reverse]
  | c :: cs, acc =>
    if c.isWhitespace then
      if acc = [] then splitWsAux cs []
      else acc.reverse :: splitWsAux cs []
    else splitWsAux cs (c :: acc)

/-- Python `str.split()` with no argument: split on whitespace runs and drop
empty tokens. -/
def pySplit (s : Str) : List Str := splitWsAux s []

/-- Python regex word character (`\w`) for ASCII text. -/
def isWordChar (c : Char) : Bool := c.isAlphanum || c == '_'

/-- Word-character test on an optional character; `none` (out of range)
counts as non-word, matching `\b` at the ends of the text. -/
def isWordOpt : Option Char → Bool
  | none => false
  | some c => isWordChar c

/-- Character class `[\d,.]` of the number regex. -/
def isNumChar (c : Char) : Bool := c.isDigit || c == ',' || c == '.'

/-- Character class `[a-zA-Z]` of the entity regex. -/
def isAsciiLetter (c : Char) : Bool := c.isAlpha

/-- Character of `l` at index `i`, if any. -/
def charAt (l : Str) (i : ℕ) : Option Char := (l.drop i).head?

/-- Whether regex `\b` holds between positions `j - 1` and `j` of the text
`run ++ rest` (one side a word character, the other not). -/
def boundaryAfter (run rest : Str) (j : ℕ) : Bool :=
  isWordOpt (charAt (run ++ rest) (j - 1)) != isWordOpt (charAt (run ++ rest) j)

/-- Greedy backtracking search for the end of a number match: the largest
`j ≤ bound` (with `j ≥ 1`) such that `\b` holds after `j` consumed
characters of `run`. -/
def numEndAux (run rest : Str) : ℕ → Option ℕ
  | 0 => none
  | j + 1 => if boundaryAfter run rest (j + 1) then some (j + 1) else numEndAux run rest j

/-- End position of a number match starting a maximal `[\d,.]` run `run`. -/
def numEnd (run rest : Str) : Option ℕ := numEndAux run rest run.length

/-- Left-to-right scan of `re.findall(r"\b\d+[\d,.]*\b", text)`: `prev` is the
character before the current position, `fuel` bounds the recursion by the
remaining text length. A match starts at a digit preceded by a non-word
character, greedily consumes the maximal `[\d,.]` run, and backtracks to the
largest end with a word boundary; scanning resumes after each match. -/
def findNumbersFuel : ℕ → Option Char → Str → List Str
  | 0, _, _ => []
  | _ + 1, _, [] => []
  | fuel + 1, prev, c :: cs =>
    if c.isDigit && !isWordOpt prev then
      match numEnd ((c :: cs).takeWhile isNumChar) ((c :: cs).dropWhile isNumChar) with
      | some j =>
          ((c :: cs).takeWhile isNumChar).take j ::
            findNumbersFuel fuel (charAt (c :: cs) (j - 1)) ((c :: cs).drop j)
      | none => findNumbersFuel fuel (some c) cs
    else findNumbersFuel fuel (some c) cs

/-- All matches of the number regex `\b\d+[\d,.]*\b` in `text`. -/
def findNumbers (text : Str) : List Str := findNumbersFuel text.length none text

/-- Left-to-right scan of `re.findall(r"\b[A-Z][a-zA-Z]+\b", text)`: a match
starts at an uppercase letter preceded by a non-word character, takes the
maximal letter run, and succeeds iff the run has length at least two and is
followed by a non-word character (shrinking the run can never restore the
final word boundary, so there is no backtracking). -/
def findEntitiesFuel : ℕ → Option Char → Str → List Str
  | 0, _, _ => []
  | _ + 1, _, [] => []
  | fuel + 1, prev, c :: cs =>
    if c.isUpper && !isWordOpt prev then
      if 2 ≤ ((c :: cs).takeWhile isAsciiLetter).length &&
          !isWordOpt ((c :: cs).dropWhile isAsciiLetter).head? then
        (c :: cs).takeWhile isAsciiLetter ::
          findEntitiesFuel fuel ((c :: cs).takeWhile isAsciiLetter).getLast?
            ((c :: cs).dropWhile isAsciiLetter)
      else findEntitiesFuel fuel (some c) cs
    else findEntitiesFuel fuel (some c) cs

/-- All matches of the entity regex `\b[A-Z][a-zA-Z]+\b` in `text`. -/
def findEntities (text : Str) : List Str := findEntitiesFuel text.length none text

/-- Result of `extract_facts`: the dict with keys `"numbers"` and
`"entities"`. -/
structure FactSet where
  numbers : List Str
  entities : List Str

/-- Embedding of `fact_locks.extract_facts`: digit-run numbers and
capitalised-token entities, with entities whose lowercase form is `"i"` or
`"the"` excluded. -/
def extract_facts (text : Str) : FactSet :=
  { numbers := findNumbers text
    entities := (findEntities text).filter
      (fun w => !(lowerStr w == ['i'] || lowerStr w == ['t', 'h', 'e'])) }

/-- Embedding of `fact_locks.check_facts`: every number and entity of
`original` must occur verbatim in `rewritten`. -/
def check_facts (original : FactSet) (rewritten : Str) : Bool :=
  (original.numbers ++ original.entities).all (fun fact => containsSub fact rewritten)

/-- State of `lint.SoapinessMeter`: the bounded deque of utterances and the
cumulative n-gram `Counter`, modelled as the list of all inserted n-grams. -/
structure SoapinessMeter where
  window_size : ℕ
  window : List Str
  ngram_counter : List (List Str)

/-- Embedding of `SoapinessMeter.__init__` (the source's default
`window_size` is 12). -/
def SoapinessMeter.init (window_size : ℕ) : SoapinessMeter :=
  { window_size := window_size, window := [], ngram_counter := [] }

/-- Contiguous token subsequences of length `n` (the inner loop of
`SoapinessMeter.update` for one `n`). -/
def ngramsLen (n : ℕ) (tokens : List Str) : List (List Str) :=
  (List.range (tokens.length + 1 - n)).map (fun i => (tokens.drop i).take n)

/-- All n-grams of `tokens` for `n ∈ {1, 2, 3}`, in the order the source
inserts them. -/
def ngramsOf (tokens : List Str) : List (List Str) :=
  ngramsLen 1 tokens ++ ngramsLen 2 tokens ++ ngramsLen 3 tokens

/-- Embedding of `SoapinessMeter.update`: append to the deque (evicting from
the front past `window_size`) and add every 1/2/3-gram of the utterance to the
cumulative counter. -/
def SoapinessMeter.update (m : SoapinessMeter) (utterance : Str) : SoapinessMeter :=
  { m with
    window := (m.window ++ [utterance]).drop ((m.window ++ [utterance]).length - m.window_size)
    ngram_counter := m.ngram_counter ++ ngramsOf (pySplit utterance) }

/-- Embedding of `SoapinessMeter.repetition_score`: `max_count / total` over
the n-gram counter, `0.0` when the counter is empty. The counter's total is
the length of the inserted-key list, and the maximum count over distinct keys
equals the maximum over `countOcc g` for every inserted `g`. -/
def SoapinessMeter.repetition_score (m : SoapinessMeter) : ℚ :=
  if m.ngram_counter.length = 0 then 0
  else ((m.ngram_counter.map (fun g => countOcc g m.ngram_counter)).foldr max 0 : ℚ) /
    (m.ngram_counter.length : ℚ)

/-- Unigram tokens contributed by the current window, in order (the loop
`for utter in self.window: counts.update(utter.split())`). -/
def SoapinessMeter.windowTokens (m : SoapinessMeter) : List Str :=
  m.window.foldl (fun acc u => acc ++ pySplit u) []

/-- Embedding of `SoapinessMeter.kl_divergence`: relative entropy of the
in-window token distribution against the uniform distribution on its support,
`0.0` when the window contributes no tokens. The sum ranges over the distinct
tokens (the `Counter` values); its value does not depend on their order. -/
noncomputable def SoapinessMeter.kl_divergence (m : SoapinessMeter) : ℝ :=
  if m.windowTokens.length = 0 then 0
  else
    (m.windowTokens.dedup.map (fun t =>
      ((countOcc t m.windowTokens : ℝ) / (m.windowTokens.length : ℝ)) *
        Real.log (((countOcc t m.windowTokens : ℝ) / (m.windowTokens.length : ℝ)) /
          (1 / (m.windowTokens.dedup.length : ℝ))))).sum

/-- Embedding of `SoapinessMeter.gesture_repetition`: the stub always
returns `0`. -/
def SoapinessMeter.gesture_repetition (_ : SoapinessMeter) : ℚ := 0

/-- Embedding of `SoapinessMeter.cliché_hits` (the accented source name is
not a valid Lean identifier): how many configured phrases occur in the
lowercased draft. -/
def SoapinessMeter.cliche_hits (_ : SoapinessMeter) (draft : Str) (cliches : List Str) : ℕ :=
  cliches.countP (fun c => containsSub c (lowerStr draft))

/-- One pattern record of a pool; only its `pattern` payload (of abstract
type `π`) is consumed by the decision path. -/
structure PatternRecord (π : Type) where
  pattern : π

/-- The dictionary of pattern pools (`lex`, `syn`, `rhythm`). -/
structure NoveltyDictionary (π : Type) where
  lex : List (PatternRecord π)
  syn : List (PatternRecord π)
  rhythm : List (PatternRecord π)

/-- One `inject` entry of a plan: the dict `{type, pattern}`. -/
structure InjectEntry (π : Type) where
  type : String
  pattern : π

/-- Embedding of the `lint.Plan` dataclass with its field defaults. -/
structure Plan (π : Type) where
  mode : String
  locks : List (String × Bool) := []
  remove : List Str := []
  inject : List (InjectEntry π) := []
  max_edit_ratio : ℚ := 1 / 4
  style_constraints : List (String × ℚ) := [("voice_weight", 9 / 10), ("temperature_cap", 4 / 5)]

/-- State of `lint.Linter` (the accented source field name `clichés` is
written `cliches`; `cooldowns` and `pattern_history` are carried but unused
by `inspect`, as in the source). -/
structure Linter (π : Type) where
  dictionary : NoveltyDictionary π
  cliches : List Str
  cooldowns : List (String × ℤ)
  threshold : ℝ
  meter : SoapinessMeter
  pattern_history : List (String × ℤ)

/-- The meter state after `inspect` has fed `context + [draft]` into it. -/
def Linter.runMeter {π : Type} (L : Linter π) (draft : Str) (context : List Str) :
    SoapinessMeter :=
  (context ++ [draft]).foldl SoapinessMeter.update L.meter

/-- The soapiness score computed by `Linter.inspect`:
`0.4·rep + 0.25·kl + 0.2·gest + 0.15·(1 if cliché_count > 0 else 0)`. -/
noncomputable def Linter.soapiness {π : Type} (L : Linter π) (draft : Str)
    (context : List Str) : ℝ :=
  0.4 * ((L.runMeter draft context).repetition_score : ℝ) +
    0.25 * (L.runMeter draft context).kl_divergence +
    0.2 * ((L.runMeter draft context).gesture_repetition : ℝ) +
    0.15 * (if 0 < (L.runMeter draft context).cliche_hits draft L.cliches then 1 else 0)

/-- Embedding of `Linter.inspect`: update the meter with context and draft,
compute soapiness, and either return a bare `none` plan (strictly below the
threshold) or build the `micro` plan (locks, cliché removals in configured
order, first-of-pool `syn`/`rhythm` injections, edit-ratio 0.25). The updated
linter state is returned alongside the plan. -/
noncomputable def Linter.inspect {π : Type} (L : Linter π) (draft : Str)
    (context : List Str) : Plan π × Linter π :=
  if L.soapiness draft context < L.threshold then
    ({ mode := "none" }, { L with meter := L.runMeter draft context })
  else
    ({ mode := "micro"
       locks := [("numbers", true), ("named_entities", true), ("quotes", true)]
       remove := L.cliches.filter (fun c => containsSub c (lowerStr draft))
       inject :=
         (match L.dictionary.syn with
          | [] => []
          | p :: _ => [{ type := "syntactic", pattern := p.pattern }]) ++
         (match L.dictionary.rhythm with
          | [] => []
          | p :: _ => [{ type := "rhythm", pattern := p.pattern }])
       max_edit_ratio := 1 / 4 },
     { L with meter := L.runMeter draft context })

/-- The opaque rewriting capability handed to `apply_plan` (`model.generate`). -/
structure Model where
  generate : Str → Str

/-- Embedding of `rewrite.apply_plan`: the reference implementation skips
rewriting (`rewritten = draft`), then falls back to the original draft
whenever the fact guard rejects the candidate. -/
def apply_plan {π : Type} (draft : Str) (_plan : Plan π) (_model : Model) : Str :=
  let facts := extract_facts draft
  let rewritten := draft
  if check_facts facts rewritten = false then draft else rewritten

/-- Fixture: an empty pattern dictionary. -/
def emptyDict (π : Type) : NoveltyDictionary π := { lex := [], syn := [], rhythm := [] }

/-- Fixture: linter with threshold 0 and no clichés. -/
def linterPlain : Linter Unit :=
  { dictionary := emptyDict Unit, cliches := [], cooldowns := [], threshold := 0
    meter := SoapinessMeter.init 12, pattern_history := [] }

/-- Fixture: linter with threshold 0 whose only cliché is the empty phrase. -/
def linterEmptyPhrase : Linter Unit :=
  { dictionary := emptyDict Unit, cliches := [[]], cooldowns := [], threshold := 0
    meter := SoapinessMeter.init 12, pattern_history := [] }

/-- Fixture: linter with threshold 0 whose only cliché carries an uppercase
letter. -/
def linterUpperPhrase : Linter Unit :=
  { dictionary := emptyDict Unit, cliches := [strL "Hello"], cooldowns := [], threshold := 0
    meter := SoapinessMeter.init 12, pattern_history := [] }

/-- Fixture: linter with threshold 0 and populated `syn`/`rhythm`/`lex`
pools. -/
def linterPools : Linter String :=
  { dictionary := { lex := [⟨"l1"⟩], syn := [⟨"s1"⟩, ⟨"s2"⟩], rhythm := [⟨"r1"⟩] }
    cliches := [], cooldowns := [], threshold := 0
    meter := SoapinessMeter.init 12, pattern_history := [] }

/-- Fixture: the draft of scenario C. -/
def parisDraft : Str := strL "Paris has 2.1 million people."

/-- Fixture: a rewriting capability that always answers "modified response". -/
def modifiedModel : Model := { generate := fun _ => strL "modified response" }

/-! Substring lemmas relating the executable `containsSub` to the
specification-level relation `InfixOf`. -/

theorem startsWithL_iff : ∀ (n l : Str), startsWithL n l = true ↔ ∃ post, n ++ post = l
  | [], l => by simp [startsWithL]
  | _ :: _, [] => by simp [startsWithL]
  | a :: as, b :: bs => by
    simp only [startsWithL, Bool.and_eq_true, beq_iff_eq, startsWithL_iff as bs,
      List.cons_append, List.cons.injEq]
    constructor
    · rintro ⟨rfl, post, rfl⟩
      exact ⟨post, rfl, rfl⟩
    · rintro ⟨post, rfl, rfl⟩
      exact ⟨rfl, post, rfl⟩

theorem containsSub_iff : ∀ (n l : Str), containsSub n l = true ↔ InfixOf n l
  | n, [] => by
    simp [containsSub, startsWithL_iff, InfixOf]
  | n, b :: bs => by
    simp only [containsSub, Bool.or_eq_true, startsWithL_iff, containsSub_iff n bs, InfixOf]
    constructor
    · rintro (⟨post, h⟩ | ⟨pre, post, h⟩)
      · exact ⟨[], post, by simpa using h⟩
      · exact ⟨b :: pre, post, by simp [h]⟩
    · rintro ⟨pre, post, h⟩
      cases pre with
      | nil => exact Or.inl ⟨post, by simpa using h⟩
      | cons p pre' =>
        refine Or.inr ⟨pre', post, ?_⟩
        injection h with _ h2

theorem infixOf_of_drop {m l : Str} (j : ℕ) (h : InfixOf m (l.drop j)) : InfixOf m l := by
  obtain ⟨pre, post, hh⟩ := h
  exact ⟨l.take j ++ pre, post, by
    simpa [List.append_assoc] using congrArg (fun t => l.take j ++ t) hh⟩

theorem infixOf_append_left {m r : Str} (x : Str) (h : InfixOf m r) : InfixOf m (x ++ r) := by
  obtain ⟨pre, post, hh⟩ := h
  exact ⟨x ++ pre, post, by
    simpa [List.append_assoc] using congrArg (fun t => x ++ t) hh⟩

theorem infixOf_takeWhile_take (p : Char → Bool) (l : Str) (j : ℕ) :
    InfixOf ((l.takeWhile p).take j) l := by
  refine ⟨[], (l.takeWhile p).drop j ++ l.dropWhile p, ?_⟩
  rw [List.nil_append, ← List.append_assoc, List.take_append_drop,
    List.takeWhile_append_dropWhile]

theorem infixOf_takeWhile (p : Char → Bool) (l : Str) : InfixOf (l.takeWhile p) l :=
  ⟨[], l.dropWhile p, by simp⟩

/-! Every match produced by the regex scans is a contiguous substring of the
scanned text. -/

theorem findNumbersFuel_substring :
    ∀ (fuel : ℕ) (prev : Option Char) (l : Str), ∀ m ∈ findNumbersFuel fuel prev l,
      InfixOf m l := by
  intro fuel
  induction fuel with
  | zero => intro prev l m hm; simp [findNumbersFuel] at hm
  | succ fuel ih =>
    intro prev l m hm
    cases l with
    | nil => simp [findNumbersFuel] at hm
    | cons c cs =>
      simp only [findNumbersFuel] at hm
      split at hm
      · split at hm
        · rcases List.mem_cons.mp hm with rfl | hm'
          · exact infixOf_takeWhile_take _ _ _
          · exact infixOf_of_drop _ (ih _ _ _ hm')
        · exact infixOf_append_left [c] (ih _ _ _ hm)
      · exact infixOf_append_left [c] (ih _ _ _ hm)

theorem findEntitiesFuel_substring :
    ∀ (fuel : ℕ) (prev : Option Char) (l : Str), ∀ m ∈ findEntitiesFuel fuel prev l,
      InfixOf m l := by
  intro fuel
  induction fuel with
  | zero => intro prev l m hm; simp [findEntitiesFuel] at hm
  | succ fuel ih =>
    intro prev l m hm
    cases l with
    | nil => simp [findEntitiesFuel] at hm
    | cons c cs =>
      simp only [findEntitiesFuel] at hm
      split at hm
      · split at hm
        · rcases List.mem_cons.mp hm with rfl | hm'
          · exact infixOf_takeWhile _ _
          · have h := ih _ _ _ hm'
            have heq : (c :: cs).takeWhile isAsciiLetter ++ (c :: cs).dropWhile isAsciiLetter
                = c :: cs := List.takeWhile_append_dropWhile _ _
            rw [← heq]
            exact infixOf_append_left _ h
        · exact infixOf_append_left [c] (ih _ _ _ hm)
      · exact infixOf_append_left [c] (ih _ _ _ hm)

/-- C2: for every text `t`, `check_facts (extract_facts t) t` is true — a
text verbatim-preserves its own extracted fact set, since every extracted
number and entity is a contiguous substring of `t`. -/
theorem check_facts_extract_facts_roundtrip (t : Str) :
    check_facts (extract_facts t) t = true := by
  unfold check_facts extract_facts
  rw [List.all_eq_true]
  intro fact hfact
  rcases List.mem_append.mp hfact with h | h
  · exact (containsSub_iff fact t).mpr (findNumbersFuel_substring _ _ _ _ h)
  · exact (containsSub_iff fact t).mpr (findEntitiesFuel_substring _ _ _ _ (List.mem_of_mem_filter h))

/-- C6: `check_facts F c` is true iff every literal string in `F.numbers`
and every literal string in `F.entities` occurs verbatim as a substring of
`c`; a single missing fact makes the whole check false. -/
theorem check_facts_iff_all_substrings (F : FactSet) (c : Str) :
    check_facts F c = true ↔
      (∀ f ∈ F.numbers, InfixOf f c) ∧ (∀ f ∈ F.entities, InfixOf f c) := by
  unfold check_facts
  rw [List.all_eq_true]
  constructor
  · intro h
    exact ⟨fun f hf => (containsSub_iff f c).mp (h f (List.mem_append_left _ hf)),
      fun f hf => (containsSub_iff f c).mp (h f (List.mem_append_right _ hf))⟩
  · rintro ⟨h1, h2⟩ f hf
    rcases List.mem_append.mp hf with h | h
    · exact (containsSub_iff f c).mpr (h1 f h)
    · exact (containsSub_iff f c).mpr (h2 f h)

/-! The rewrite stub. -/

theorem apply_plan_eq_draft {π : Type} (draft : Str) (plan : Plan π) (model : Model) :
    apply_plan draft plan model = draft := by
  simp only [apply_plan]
  split <;> rfl

/-- C10: `apply_plan` returns the draft unchanged for every plan and model,
and its result does not depend on the model — the rewriting step is a no-op
identity that never invokes the model. -/
theorem apply_plan_identity {π : Type} (draft : Str) (plan : Plan π) (model : Model) :
    apply_plan draft plan model = draft ∧
      ∀ model' : Model, apply_plan draft plan model = apply_plan draft plan model' :=
  ⟨apply_plan_eq_draft draft plan model,
    fun model' => by rw [apply_plan_eq_draft, apply_plan_eq_draft]⟩

/-- C7: whenever the rewriting capability's candidate text loses a fact of
the original draft (the guard `check_facts` rejects it), `apply_plan`
returns the original draft exactly. -/
theorem apply_plan_fallback_on_fact_loss {π : Type} (draft : Str) (plan : Plan π)
    (model : Model)
    (_h : check_facts (extract_facts draft) (model.generate draft) = false) :
    apply_plan draft plan model = draft :=
  apply_plan_eq_draft draft plan model

/-- Witness for C7 (scenario C): the draft about Paris, a capability
answering "modified response"; the guard rejects the candidate and the final
output equals the original draft. -/
theorem apply_plan_fallback_witness :
    check_facts (extract_facts parisDraft) (modifiedModel.generate parisDraft) = false ∧
      apply_plan parisDraft ({ mode := "micro", locks := [("numbers", true)] } : Plan Unit)
        modifiedModel = parisDraft :=
  ⟨by decide, apply_plan_fallback_on_fact_loss parisDraft _ modifiedModel (by decide)⟩

/-! Window aggregator lemmas. -/

theorem update_window_size (m : SoapinessMeter) (u : Str) :
    (m.update u).window_size = m.window_size := rfl

theorem init_window (N : ℕ) : (SoapinessMeter.init N).window = [] := rfl

theorem init_window_size (N : ℕ) : (SoapinessMeter.init N).window_size = N := rfl

theorem init_ngram_counter (N : ℕ) : (SoapinessMeter.init N).ngram_counter = [] := rfl

theorem update_window_length_le (m : SoapinessMeter) (u : Str) :
    (m.update u).window.length ≤ m.window_size := by
  simp only [SoapinessMeter.update, List.length_drop, List.length_append]
  omega

theorem drop_lastN_append {α : Type} (N : ℕ) (w us : List α) :
    ((w.drop (w.length - N)) ++ us).drop (((w.drop (w.length - N)) ++ us).length - N)
      = (w ++ us).drop ((w ++ us).length - N) := by
  rw [List.drop_append_eq_append_drop, List.drop_append_eq_append_drop, List.drop_drop]
  congr 1
  · congr 1
    simp only [List.length_drop, List.length_append]
    omega
  · congr 1
    simp only [List.length_drop, List.length_append]
    omega

theorem foldl_update_window (us : List Str) :
    ∀ (m : SoapinessMeter), m.window.length ≤ m.window_size →
      (us.foldl SoapinessMeter.update m).window
        = (m.window ++ us).drop ((m.window ++ us).length - m.window_size) := by
  induction us with
  | nil =>
    intro m hm
    simp [Nat.sub_eq_zero_of_le hm]
  | cons u us ih =>
    intro m hm
    rw [List.foldl_cons]
    rw [ih (m.update u) (le_of_le_of_eq (update_window_length_le m u) rfl)]
    rw [show (m.update u).window_size = m.window_size from rfl]
    rw [show (m.update u).window
        = (m.window ++ [u]).drop ((m.window ++ [u]).length - m.window_size) from rfl]
    rw [drop_lastN_append m.window_size (m.window ++ [u]) us]
    simp [List.append_assoc]

theorem foldl_update_counter_count (us : List Str) (g : List Str) :
    ∀ m : SoapinessMeter, countOcc g ((us.foldl SoapinessMeter.update m).ngram_counter)
      = countOcc g m.ngram_counter + (us.map (fun v => countOcc g (ngramsOf (pySplit v)))).sum := by
  induction us with
  | nil => intro m; simp
  | cons u us ih =>
    intro m
    rw [List.foldl_cons, ih]
    simp only [SoapinessMeter.update, countOcc, List.count_append, List.map_cons,
      List.sum_cons]
    omega

/-- C3: from a fresh aggregator of capacity `N`, the window never exceeds `N`
utterances and holds exactly the last `N` fed (FIFO, so after `N + 1` feeds
the first utterance's slot is dropped), while every n-gram count is
monotonically non-decreasing across a single update and the cumulative table
keeps every fed utterance's contributions, evicted or not. -/
theorem window_bounded_fifo_counter_monotone (N : ℕ) (us : List Str) (g : List Str)
    (m : SoapinessMeter) (u : Str) :
    (us.foldl SoapinessMeter.update (SoapinessMeter.init N)).window.length ≤ N
    ∧ (us.foldl SoapinessMeter.update (SoapinessMeter.init N)).window
        = us.drop (us.length - N)
    ∧ (us.length = N + 1 →
        (us.foldl SoapinessMeter.update (SoapinessMeter.init N)).window = us.drop 1)
    ∧ countOcc g m.ngram_counter ≤ countOcc g ((m.update u).ngram_counter)
    ∧ countOcc g ((us.foldl SoapinessMeter.update (SoapinessMeter.init N)).ngram_counter)
        = (us.map (fun v => countOcc g (ngramsOf (pySplit v)))).sum := by
  have hwin := foldl_update_window us (SoapinessMeter.init N)
    (by simp [init_window, init_window_size])
  simp only [init_window, init_window_size, List.nil_append] at hwin
  refine ⟨?_, hwin, ?_, ?_, ?_⟩
  · rw [hwin]
    simp only [List.length_drop]
    omega
  · intro hlen
    rw [hwin, hlen]
    congr 1
    omega
  · simp only [SoapinessMeter.update, countOcc, List.count_append]
    omega
  · simpa [init_ngram_counter, countOcc] using
      foldl_update_counter_count us g (SoapinessMeter.init N)

/-- Witness for C3: capacity 1, two utterances fed; the window drops the
first utterance, keeping only the second. -/
theorem window_fifo_witness :
    ([strL "a", strL "b"].foldl SoapinessMeter.update (SoapinessMeter.init 1)).window
      = [strL "a", strL "b"].drop 1 :=
  (window_bounded_fifo_counter_monotone 1 [strL "a", strL "b"] [] (SoapinessMeter.init 1)
    []).2.2.1 rfl

/-! Degenerate-case lemmas for the score operations. -/

theorem repetition_score_of_counter_nil (m : SoapinessMeter) (h : m.ngram_counter = []) :
    m.repetition_score = 0 := by
  simp [SoapinessMeter.repetition_score, h]

theorem kl_divergence_of_tokens_nil (m : SoapinessMeter) (h : m.windowTokens = []) :
    m.kl_divergence = 0 := by
  simp [SoapinessMeter.kl_divergence, h]

theorem kl_divergence_of_count_const (m : SoapinessMeter) (k : ℕ)
    (h : ∀ t ∈ m.windowTokens.dedup, countOcc t m.windowTokens = k) :
    m.kl_divergence = 0 := by
  by_cases h0 : m.windowTokens.length = 0
  · simp [SoapinessMeter.kl_divergence, h0]
  · unfold SoapinessMeter.kl_divergence
    rw [if_neg h0]
    apply List.sum_eq_zero
    intro x hx
    rw [List.mem_map] at hx
    obtain ⟨t, ht, rfl⟩ := hx
    have hcount : countOcc t m.windowTokens = k := h t ht
    have hk : 0 < k := by
      rw [← hcount]
      simpa [countOcc] using List.count_pos_iff.mpr (List.mem_dedup.mp ht)
    have hd : 0 < m.windowTokens.dedup.length := List.length_pos_of_mem ht
    have hTot : m.windowTokens.length = m.windowTokens.dedup.length * k := by
      have hsum : (m.windowTokens.dedup.map fun x => countOcc x m.windowTokens).sum
          = m.windowTokens.length := by
        simpa [countOcc] using List.sum_map_count_dedup_eq_length m.windowTokens
      rw [List.map_congr_left h, List.map_const', List.sum_replicate, smul_eq_mul] at hsum
      exact hsum.symm
    have hk' : (k : ℝ) ≠ 0 := Nat.cast_ne_zero.mpr hk.ne'
    have hd' : ((m.windowTokens.dedup.length : ℕ) : ℝ) ≠ 0 := Nat.cast_ne_zero.mpr hd.ne'
    have hp : ((countOcc t m.windowTokens : ℕ) : ℝ) / (m.windowTokens.length : ℝ)
        = 1 / (m.windowTokens.dedup.length : ℝ) := by
      rw [hcount, hTot]
      push_cast
      field_simp
      ring
    rw [hp, div_self (one_div_ne_zero hd'), Real.log_one, mul_zero]

/-- Counterexample for C5: single-token support is listed as a degenerate
case, yet an aggregator that has seen the one-token utterance "x" has
`repetition_score = 1`, not `0`. -/
theorem repetition_score_single_support_counterexample :
    (((SoapinessMeter.init 12).update (strL "x")).windowTokens.dedup.length = 1)
    ∧ ((SoapinessMeter.init 12).update (strL "x")).repetition_score = 1 := by
  constructor
  · decide
  · have hc : ((SoapinessMeter.init 12).update (strL "x")).ngram_counter = [[strL "x"]] := by
      decide
    have hm : (([[strL "x"]] : List (List Str)).map (fun g => countOcc g [[strL "x"]]))
        = [1] := by decide
    simp only [SoapinessMeter.repetition_score, hc, hm]
    norm_num [List.foldr]

/-- C5 (amended): the score operations are total, and each returns exactly
`0` in its own degenerate cases — `repetition_score` on an empty n-gram
table (zero utterances or zero tokens seen), `kl_divergence` on a window
contributing no tokens and on single-token support, and
`gesture_repetition` always. (`repetition_score` is *not* `0` on
single-token support; see the counterexample.) -/
theorem score_operations_degenerate_zero (m : SoapinessMeter) :
    (m.ngram_counter = [] → m.repetition_score = 0)
    ∧ (m.windowTokens = [] → m.kl_divergence = 0)
    ∧ (m.windowTokens.dedup.length ≤ 1 → m.kl_divergence = 0)
    ∧ m.gesture_repetition = 0 := by
  refine ⟨repetition_score_of_counter_nil m, kl_divergence_of_tokens_nil m, ?_, rfl⟩
  intro hd
  apply kl_divergence_of_count_const m m.windowTokens.length
  intro t ht
  refine (@List.count_eq_length Str instBEqOfDecidableEq _ t m.windowTokens).mpr ?_
  intro b hb
  have hbd : b ∈ m.windowTokens.dedup := List.mem_dedup.mpr hb
  cases hdl : m.windowTokens.dedup with
  | nil => rw [hdl] at ht; simp at ht
  | cons a tail =>
    rw [hdl] at ht hbd hd
    have htail : tail = [] := by
      simp only [List.length_cons] at hd
      exact List.length_eq_zero.mp (Nat.le_zero.mp (Nat.le_of_succ_le_succ hd))
    subst htail
    simp only [List.mem_singleton] at ht hbd
    rw [ht, hbd]

/-- Witness for C5: the degenerate-case zeros evaluated on a fresh
aggregator and on one with single-token support. -/
theorem score_degenerate_witness :
    (SoapinessMeter.init 12).repetition_score = 0
    ∧ (SoapinessMeter.init 12).kl_divergence = 0
    ∧ ((SoapinessMeter.init 12).update (strL "x")).kl_divergence = 0
    ∧ (SoapinessMeter.init 12).gesture_repetition = 0 :=
  ⟨(score_operations_degenerate_zero (SoapinessMeter.init 12)).1 rfl,
   (score_operations_degenerate_zero (SoapinessMeter.init 12)).2.1 rfl,
   (score_operations_degenerate_zero ((SoapinessMeter.init 12).update (strL "x"))).2.2.1
     (by decide),
   (score_operations_degenerate_zero (SoapinessMeter.init 12)).2.2.2⟩

/-- C9: `kl_divergence` is exactly `0` on an empty window, and `0` on every
window whose in-window whitespace tokens are uniformly distributed over
their support (every distinct token occurring the same number `k` of
times). -/
theorem kl_divergence_empty_and_uniform_zero (m : SoapinessMeter) (k : ℕ) :
    (m.window = [] → m.kl_divergence = 0)
    ∧ ((∀ t ∈ m.windowTokens.dedup, countOcc t m.windowTokens = k) →
        m.kl_divergence = 0) := by
  constructor
  · intro hw
    apply kl_divergence_of_tokens_nil
    simp [SoapinessMeter.windowTokens, hw]
  · exact kl_divergence_of_count_const m k

/-- Witness for C9: a fresh (empty-window) aggregator, and a window holding
"a b" whose two tokens each occur once. -/
theorem kl_divergence_zero_witness :
    (SoapinessMeter.init 7).kl_divergence = 0
    ∧ ({ window_size := 12, window := [strL "a b"], ngram_counter := [] }
        : SoapinessMeter).kl_divergence = 0 :=
  ⟨(kl_divergence_empty_and_uniform_zero (SoapinessMeter.init 7) 0).1 rfl,
   (kl_divergence_empty_and_uniform_zero
      ({ window_size := 12, window := [strL "a b"], ngram_counter := [] }) 1).2
     (by decide)⟩

/-! Decision-engine lemmas: the two branches of `Linter.inspect`. -/

theorem inspect_fst_of_lt {π : Type} (L : Linter π) (d : Str) (c : List Str)
    (h : L.soapiness d c < L.threshold) :
    (L.inspect d c).1 = { mode := "none" } := by
  unfold Linter.inspect
  rw [if_pos h]

theorem inspect_fst_of_not_lt {π : Type} (L : Linter π) (d : Str) (c : List Str)
    (h : ¬ L.soapiness d c < L.threshold) :
    (L.inspect d c).1 =
      { mode := "micro"
        locks := [("numbers", true), ("named_entities", true), ("quotes", true)]
        remove := L.cliches.filter (fun p => containsSub p (lowerStr d))
        inject :=
          (match L.dictionary.syn with
           | [] => []
           | p :: _ => [{ type := "syntactic", pattern := p.pattern }]) ++
          (match L.dictionary.rhythm with
           | [] => []
           | p :: _ => [{ type := "rhythm", pattern := p.pattern }])
        max_edit_ratio := 1 / 4 } := by
  unfold Linter.inspect
  rw [if_neg h]

/-- C1: `inspect` returns a plan with mode `"none"` iff the computed
soapiness is strictly below the threshold; in particular a score exactly
equal to the threshold yields mode `"micro"`. -/
theorem inspect_mode_none_iff_below_threshold {π : Type} (L : Linter π) (d : Str)
    (c : List Str) :
    ((L.inspect d c).1.mode = "none" ↔ L.soapiness d c < L.threshold)
    ∧ (L.soapiness d c = L.threshold → (L.inspect d c).1.mode = "micro") := by
  by_cases h : L.soapiness d c < L.threshold
  · rw [inspect_fst_of_lt L d c h]
    refine ⟨by simp [h], ?_⟩
    intro heq
    rw [heq] at h
    exact absurd h (lt_irrefl _)
  · rw [inspect_fst_of_not_lt L d c h]
    exact ⟨⟨fun hmode => absurd (show ("micro" : String) = "none" from hmode) (by decide),
      fun hlt => absurd hlt h⟩, fun _ => rfl⟩

/-! Evaluation helpers for concrete linters. -/

theorem foldl_tokens_nil :
    ∀ (w : List Str), (∀ u ∈ w, pySplit u = []) →
      ∀ acc : List Str, (w.foldl (fun acc u => acc ++ pySplit u) acc) = acc := by
  intro w
  induction w with
  | nil => intro _ acc; rfl
  | cons u w ih =>
    intro h acc
    rw [List.foldl_cons, h u (List.mem_cons_self u w), List.append_nil]
    exact ih (fun v hv => h v (List.mem_cons_of_mem u hv)) acc

/-- Soapiness of a draft with no tokens inspected with empty context by a
linter whose meter is fresh: only the cliché indicator can contribute. -/
theorem soapiness_trivial {π : Type} (L : Linter π) (d : Str)
    (hw : L.meter.window = []) (hc : L.meter.ngram_counter = [])
    (hd : pySplit d = []) :
    L.soapiness d [] =
      0.15 * (if 0 < L.cliches.countP (fun c => containsSub c (lowerStr d))
        then (1 : ℝ) else 0) := by
  have hM : L.runMeter d [] = L.meter.update d := by
    simp [Linter.runMeter]
  have hcount : (L.meter.update d).ngram_counter = [] := by
    simp [SoapinessMeter.update, hc, hd, ngramsOf, ngramsLen]
  have htok : (L.meter.update d).windowTokens = [] := by
    unfold SoapinessMeter.windowTokens
    apply foldl_tokens_nil
    intro u hu
    simp only [SoapinessMeter.update, hw, List.nil_append] at hu
    have hu' : u ∈ [d] := List.mem_of_mem_drop hu
    rw [List.mem_singleton] at hu'
    rw [hu']
    exact hd
  have hrep : (L.runMeter d []).repetition_score = 0 := by
    rw [hM]
    exact repetition_score_of_counter_nil _ hcount
  have hkl : (L.runMeter d []).kl_divergence = 0 := by
    rw [hM]
    exact kl_divergence_of_tokens_nil _ htok
  unfold Linter.soapiness
  rw [hrep, hkl]
  norm_num [SoapinessMeter.gesture_repetition, SoapinessMeter.cliche_hits]

/-- Witness for C1: a linter with threshold `0` inspecting a whitespace-only
draft has soapiness exactly equal to its threshold, and the returned plan has
mode `"micro"`. -/
theorem inspect_threshold_equality_witness :
    linterPlain.soapiness (strL " ") [] = linterPlain.threshold
    ∧ (linterPlain.inspect (strL " ") []).1.mode = "micro" := by
  have hs : linterPlain.soapiness (strL " ") [] = 0 := by
    rw [soapiness_trivial linterPlain (strL " ") rfl rfl (by decide)]
    norm_num [linterPlain]
  have hth : linterPlain.threshold = 0 := rfl
  exact ⟨by rw [hs, hth],
    (inspect_mode_none_iff_below_threshold linterPlain (strL " ") []).2 (by rw [hs, hth])⟩

/-- C4 (amended): the `remove` field of a returned micro-mode plan is
exactly the configured phrases occurring verbatim in the *lowercased* draft
(phrases are matched as configured, only the draft is lowercased), in
configured order; every phrase in `remove` has `cliche_hits ≥ 1` for any
meter. -/
theorem remove_eq_filter_lowered_draft {π : Type} (L : Linter π) (d : Str) (c : List Str)
    (h : (L.inspect d c).1.mode = "micro") :
    (L.inspect d c).1.remove = L.cliches.filter (fun p => containsSub p (lowerStr d))
    ∧ ∀ (M : SoapinessMeter) (p : Str), p ∈ (L.inspect d c).1.remove →
        1 ≤ M.cliche_hits d [p] := by
  by_cases hlt : L.soapiness d c < L.threshold
  · rw [inspect_fst_of_lt L d c hlt] at h
    exact absurd (show ("none" : String) = "micro" from h) (by decide)
  · refine ⟨by rw [inspect_fst_of_not_lt L d c hlt], ?_⟩
    intro M p hp
    rw [inspect_fst_of_not_lt L d c hlt] at hp
    have hp' : p ∈ L.cliches.filter (fun q => containsSub q (lowerStr d)) := hp
    have hpc : containsSub p (lowerStr d) = true := (List.mem_filter.mp hp').2
    simp [SoapinessMeter.cliche_hits, List.countP_cons, hpc]

/-- Counterexample for C4: the configured phrase "Hello" occurs
case-insensitively in the draft "hello" (both lowercase to "hello"), the
plan has mode `"micro"`, yet `remove` is empty — the source compares the
configured phrase verbatim against the lowercased draft. -/
theorem remove_not_case_insensitive_counterexample :
    (linterUpperPhrase.inspect (strL "hello") []).1.mode = "micro"
    ∧ (linterUpperPhrase.inspect (strL "hello") []).1.remove = []
    ∧ linterUpperPhrase.cliches.filter
        (fun p => containsSub (lowerStr p) (lowerStr (strL "hello"))) = [strL "Hello"] := by
  have hM : linterUpperPhrase.runMeter (strL "hello") []
      = (SoapinessMeter.init 12).update (strL "hello") := rfl
  have hrep : ((SoapinessMeter.init 12).update (strL "hello")).repetition_score = 1 := by
    have hc : ((SoapinessMeter.init 12).update (strL "hello")).ngram_counter
        = [[strL "hello"]] := by decide
    have hm : (([[strL "hello"]] : List (List Str)).map
        (fun g => countOcc g [[strL "hello"]])) = [1] := by decide
    simp only [SoapinessMeter.repetition_score, hc, hm]
    norm_num [List.foldr]
  have hkl : ((SoapinessMeter.init 12).update (strL "hello")).kl_divergence = 0 := by
    apply kl_divergence_of_count_const _ 1
    decide
  have hch : ((SoapinessMeter.init 12).update (strL "hello")).cliche_hits (strL "hello")
      linterUpperPhrase.cliches = 0 := by decide
  have hs : linterUpperPhrase.soapiness (strL "hello") [] = 0.4 := by
    unfold Linter.soapiness
    rw [hM, hrep, hkl, hch]
    norm_num [SoapinessMeter.gesture_repetition]
  have hnlt : ¬ linterUpperPhrase.soapiness (strL "hello") []
      < linterUpperPhrase.threshold := by
    rw [hs, show linterUpperPhrase.threshold = 0 from rfl]
    norm_num
  refine ⟨by rw [inspect_fst_of_not_lt _ _ _ hnlt], ?_, by decide⟩
  rw [inspect_fst_of_not_lt _ _ _ hnlt]
  decide

/-- Witness for C4: a micro-mode plan whose `remove` equals the filter of
the configured phrases over the lowercased draft, with its member scoring at
least one cliché hit. -/
theorem remove_filter_witness :
    (linterEmptyPhrase.inspect [] []).1.mode = "micro"
    ∧ (linterEmptyPhrase.inspect [] []).1.remove = [[]]
    ∧ 1 ≤ (SoapinessMeter.init 12).cliche_hits [] [([] : Str)] := by
  have hs : linterEmptyPhrase.soapiness [] [] = 0.15 := by
    rw [soapiness_trivial linterEmptyPhrase [] rfl rfl rfl]
    norm_num [linterEmptyPhrase, List.countP_cons, containsSub, startsWithL, lowerStr]
  have hnlt : ¬ linterEmptyPhrase.soapiness [] [] < linterEmptyPhrase.threshold := by
    rw [hs, show linterEmptyPhrase.threshold = 0 from rfl]
    norm_num
  have hmode : (linterEmptyPhrase.inspect [] []).1.mode = "micro" := by
    rw [inspect_fst_of_not_lt _ _ _ hnlt]
  obtain ⟨hrm, hcnt⟩ := remove_eq_filter_lowered_draft linterEmptyPhrase [] [] hmode
  refine ⟨hmode, by rw [hrm]; decide, ?_⟩
  exact hcnt (SoapinessMeter.init 12) [] (by rw [hrm]; decide)

theorem runMeter_lex_invariant {π : Type} (L : Linter π) (lexAlt : List (PatternRecord π))
    (d : Str) (c : List Str) :
    (({ L with dictionary := { L.dictionary with lex := lexAlt } } : Linter π).runMeter d c)
      = L.runMeter d c := rfl

theorem soapiness_lex_invariant {π : Type} (L : Linter π) (lexAlt : List (PatternRecord π))
    (d : Str) (c : List Str) :
    (({ L with dictionary := { L.dictionary with lex := lexAlt } } : Linter π).soapiness d c)
      = L.soapiness d c := by
  unfold Linter.soapiness
  rw [runMeter_lex_invariant]

/-- C8: every micro-mode plan returned by `inspect` has the three
preservation locks set, `max_edit_ratio` `0.25`, the default style
constraints, and injections that take at most the first element of the
`syn` pool and at most the first element of the `rhythm` pool (none for an
empty pool); the `lex` pool is never consulted. -/
theorem micro_plan_fields {π : Type} (L : Linter π) (d : Str) (c : List Str)
    (h : (L.inspect d c).1.mode = "micro") :
    (L.inspect d c).1.locks = [("numbers", true), ("named_entities", true), ("quotes", true)]
    ∧ Plan.max_edit_ratio ((L.inspect d c).1) = 1 / 4
    ∧ (L.inspect d c).1.style_constraints
        = [("voice_weight", 9 / 10), ("temperature_cap", 4 / 5)]
    ∧ (L.inspect d c).1.inject
        = (match L.dictionary.syn with
           | [] => []
           | p :: _ => [{ type := "syntactic", pattern := p.pattern }]) ++
          (match L.dictionary.rhythm with
           | [] => []
           | p :: _ => [{ type := "rhythm", pattern := p.pattern }])
    ∧ ∀ lexAlt : List (PatternRecord π),
        (({ L with dictionary := { L.dictionary with lex := lexAlt } } : Linter π).inspect
          d c).1 = (L.inspect d c).1 := by
  by_cases hlt : L.soapiness d c < L.threshold
  · rw [inspect_fst_of_lt L d c hlt] at h
    exact absurd (show ("none" : String) = "micro" from h) (by decide)
  · have hrec := inspect_fst_of_not_lt L d c hlt
    refine ⟨by rw [hrec], by rw [hrec], by rw [hrec], by rw [hrec], ?_⟩
    intro lexAlt
    have hlt' : ¬ ({ L with dictionary := { L.dictionary with lex := lexAlt } } :
        Linter π).soapiness d c
        < ({ L with dictionary := { L.dictionary with lex := lexAlt } } :
            Linter π).threshold := by
      rw [soapiness_lex_invariant]
      exact hlt
    rw [inspect_fst_of_not_lt _ d c hlt', hrec]

/-- Witness for C8: a linter with populated pools returning a micro plan
whose fields are evaluated concretely (first `syn` and first `rhythm`
records injected). -/
theorem micro_plan_fields_witness :
    (linterPools.inspect [] []).1.mode = "micro"
    ∧ (linterPools.inspect [] []).1.locks
        = [("numbers", true), ("named_entities", true), ("quotes", true)]
    ∧ Plan.max_edit_ratio ((linterPools.inspect [] []).1) = 1 / 4
    ∧ (linterPools.inspect [] []).1.style_constraints
        = [("voice_weight", 9 / 10), ("temperature_cap", 4 / 5)]
    ∧ (linterPools.inspect [] []).1.inject
        = [{ type := "syntactic", pattern := "s1" }, { type := "rhythm", pattern := "r1" }] := by
  have hs : linterPools.soapiness [] [] = 0 := by
    rw [soapiness_trivial linterPools [] rfl rfl rfl]
    norm_num [linterPools]
  have hnlt : ¬ linterPools.soapiness [] [] < linterPools.threshold := by
    rw [hs, show linterPools.threshold = 0 from rfl]
    norm_num
  have hmode : (linterPools.inspect [] []).1.mode = "micro" := by
    rw [inspect_fst_of_not_lt _ _ _ hnlt]
  obtain ⟨h1, h2, h3, h4, _⟩ := micro_plan_fields linterPools [] [] hmode
  exact ⟨hmode, h1, h2, h3, by rw [h4]; rfl⟩

end NoveltyEngine
